import Mathlib

/-!
Shallow embedding of the OverPassAPI repository (Python) in Lean 4.

Source files embedded:
  - src/models/bounding_box.py   (`BoundingBox`)
  - src/models/polygon.py        (`PolygonType`, `Polygon`)
  - src/config.py                (`OverpassConfig`, `DEFAULT_CONFIG`)
  - src/clients/overpass_client.py   (`OverpassClient.query` retry loop)
  - src/repositories/polygon_repository.py (`PolygonRepository`)

Python floats are modelled as rationals (ℚ): the code only compares, adds,
multiplies and divides by 2, so no floating-point rounding behaviour is
relevant to the claims under scrutiny.  Python dicts are modelled as
association lists with insertion-order semantics and unique keys.
Externally-raised exceptions (`requests.exceptions.RequestException`) and the
decoded JSON payloads of the collaborator are explicit values; a call to the
collaborator is modelled as an `Except` outcome supplied as an argument.
-/

namespace OverPass

/-- JSON-ish values stored in Python dicts (`tags`, `properties`,
GeoJSON feature properties). -/
inductive JValue where
  | str : String → JValue
  | int : Int → JValue
  | num : ℚ → JValue
  deriving DecidableEq

/-- A Python `dict` with string keys, as an association list in insertion
order.  A dict built by the Python runtime always has pairwise-distinct keys;
lemmas that rely on that carry a `Nodup` hypothesis on the key list. -/
abbrev Dict := List (String × JValue)

/-- Assignment `d[k] = v` on a Python dict: replaces the value of an existing
key in place (keeping its position), otherwise appends the new pair at the
end.  On a dict with unique keys this is exactly CPython's behaviour. -/
def dictInsert : Dict → String → JValue → Dict
  | [], k, v => [(k, v)]
  | kv :: rest, k, v =>
    if kv.1 = k then (k, v) :: rest else kv :: dictInsert rest k v

/-- Splicing `{**d1, **d2}`: every pair of `d2` is assigned into `d1` in
order. -/
def dictUnion (d1 d2 : Dict) : Dict :=
  d2.foldl (fun acc kv => dictInsert acc kv.1 kv.2) d1

/-- Lookup `d.get(k)`: the value of the first pair whose key is `k`. -/
def dictGet (d : Dict) (k : String) : Option JValue :=
  (d.find? (fun kv => decide (kv.1 = k))).map Prod.snd

/-- Enum `PolygonType` (src/models/polygon.py). -/
inductive PolygonType where
  | way
  | relation
  | node
  deriving DecidableEq

/-- String value of the enum member (`PolygonType.WAY.value == "way"` etc.). -/
def PolygonType.value : PolygonType → String
  | .way => "way"
  | .relation => "relation"
  | .node => "node"

/-- Dataclass `Polygon` (src/models/polygon.py).  A coordinate is the Python
two-element list `[lon, lat]`, modelled as the pair `(lon, lat)`. -/
structure Polygon where
  osm_id : Int
  polygon_type : PolygonType
  coordinates : List (ℚ × ℚ) := []
  tags : Dict := []
  properties : Dict := []
  deriving DecidableEq

/-- Method `Polygon.is_closed`: false when fewer than 3 coordinates, else
whether the first coordinate equals the last
(`self.coordinates[0] == self.coordinates[-1]`). -/
def Polygon.is_closed (p : Polygon) : Bool :=
  if p.coordinates.length < 3 then false
  else decide (p.coordinates.head? = p.coordinates.getLast?)

/-- Method `Polygon.close`: when the polygon is not closed, append
`coordinates[0]`.  The subscript `coordinates[0]` raises `IndexError` on an
empty list, so the result is `none` in that case (the call fails). -/
def Polygon.close (p : Polygon) : Option Polygon :=
  if p.is_closed then some p
  else
    match p.coordinates with
    | [] => none
    | c :: _ => some { p with coordinates := p.coordinates ++ [c] }

/-- Method `Polygon.is_valid`: at least 3 coordinates and closed. -/
def Polygon.is_valid (p : Polygon) : Bool :=
  if p.coordinates.length < 3 then false else p.is_closed

/-- The signed sum accumulated by the loop in `Polygon.get_area`:
`for i in range(len(coords) - 1): area += x_i * y_(i+1) - x_(i+1) * y_i`. -/
def shoelace : List (ℚ × ℚ) → ℚ
  | (x1, y1) :: (x2, y2) :: rest => (x1 * y2 - x2 * y1) + shoelace ((x2, y2) :: rest)
  | _ => 0

/-- Method `Polygon.get_area`: 0 when unclosed or fewer than 3 coordinates,
otherwise `abs(area) / 2` of the shoelace sum. -/
def Polygon.get_area (p : Polygon) : ℚ :=
  if p.is_closed = false ∨ p.coordinates.length < 3 then 0
  else |shoelace p.coordinates| / 2

/-- The `properties` dict built by `Polygon.to_geojson_feature`:
`{"osm_id": ..., "type": ..., **self.tags, **self.properties}`.  The literal
keys are inserted first (in order), then the tag pairs, then the property
pairs, each by dict assignment. -/
def Polygon.feature_properties (p : Polygon) : Dict :=
  dictUnion
    (dictUnion
      [("osm_id", JValue.int p.osm_id), ("type", JValue.str p.polygon_type.value)]
      p.tags)
    p.properties

/-- GeoJSON feature returned by `Polygon.to_geojson_feature`
(`type` is always the literal "Feature", geometry type the literal
"Polygon"; only the variable parts are carried). -/
structure GeoJsonFeature where
  geometry_coordinates : List (List (ℚ × ℚ))
  properties : Dict
  deriving DecidableEq

/-- Method `Polygon.to_geojson_feature`. -/
def Polygon.to_geojson_feature (p : Polygon) : GeoJsonFeature :=
  { geometry_coordinates := [p.coordinates], properties := p.feature_properties }

/-- Dataclass `BoundingBox` (src/models/bounding_box.py). -/
structure BoundingBox where
  lat_min : ℚ
  lon_min : ℚ
  lat_max : ℚ
  lon_max : ℚ
  deriving DecidableEq

/-- Method `BoundingBox.to_overpass`:
`"(lat_min,lon_min,lat_max,lon_max)"`. -/
def BoundingBox.to_overpass (b : BoundingBox) : String :=
  "(" ++ toString b.lat_min ++ "," ++ toString b.lon_min ++ ","
      ++ toString b.lat_max ++ "," ++ toString b.lon_max ++ ")"

/-- Method `BoundingBox.is_valid` (the spec's `validate()`): the chain of six
early-false checks from src/models/bounding_box.py lines 51-63. -/
def BoundingBox.is_valid (b : BoundingBox) : Bool :=
  if b.lat_min ≥ b.lat_max then false
  else if b.lon_min ≥ b.lon_max then false
  else if ¬ (-90 ≤ b.lat_min ∧ b.lat_min ≤ 90) then false
  else if ¬ (-90 ≤ b.lat_max ∧ b.lat_max ≤ 90) then false
  else if ¬ (-180 ≤ b.lon_min ∧ b.lon_min ≤ 180) then false
  else if ¬ (-180 ≤ b.lon_max ∧ b.lon_max ≤ 180) then false
  else true

/-- Dataclass `OverpassConfig` (src/config.py). -/
structure OverpassConfig where
  url : String := "https://overpass-api.de/api/interpreter"
  timeout : ℕ := 30
  max_retries : ℕ := 3
  retry_delay : ℚ := 1
  deriving DecidableEq

/-- Module-level `DEFAULT_CONFIG = OverpassConfig()`. -/
def DEFAULT_CONFIG : OverpassConfig := {}

/-- A `requests.exceptions.RequestException` raised by the transport layer
(connection error, timeout, non-2xx status via `raise_for_status`, or a
non-parseable body).  Modelled opaquely by a message. -/
structure RequestException where
  msg : String
  deriving DecidableEq

/-- One point of an element's `geometry` array: a JSON object with `lat` and
`lon` fields. -/
structure OsmPoint where
  lat : ℚ
  lon : ℚ
  deriving DecidableEq

/-- One raw Overpass element, restricted to the fields the repository reads:
`element.get("type")`, `element.get("id")`, `element.get("tags", {})`
(absence modelled by the empty dict, matching the default), and
`"geometry" in element` / `element["geometry"]`. -/
structure OsmElement where
  etype : Option String
  id : Int
  tags : Dict := []
  geometry : Option (List OsmPoint) := none
  deriving DecidableEq

/-- Decoded JSON payload of a fetch.  Only the `elements` key is ever read by
the repository; the guard `if not data or "elements" not in data` is
equivalent to `elements` being absent, because a dict that contains the key
`elements` is nonempty (truthy), and an empty dict lacks the key. -/
structure OverpassResponse where
  elements : Option (List OsmElement) := none
  deriving DecidableEq

/-- Outcome of the n-th call to
`requests.get(...); response.raise_for_status(); response.json()` inside
`OverpassClient.query`: either a transport/decode failure or the decoded
payload. -/
abbrev AttemptOutcomes := ℕ → Except RequestException OverpassResponse

instance {ε α : Type} [DecidableEq ε] [DecidableEq α] :
    DecidableEq (Except ε α) := fun a b =>
  match a, b with
  | .ok x, .ok y => decidable_of_iff (x = y) (by simp)
  | .error x, .error y => decidable_of_iff (x = y) (by simp)
  | .ok _, .error _ => isFalse (by simp)
  | .error _, .ok _ => isFalse (by simp)

/-- Observable trace of one `OverpassClient.query` call: how many fetch
attempts were made, the durations passed to `time.sleep` in order, and the
returned payload or re-raised exception. -/
structure QueryTrace where
  fetch_count : ℕ
  sleeps : List ℚ
  result : Except RequestException OverpassResponse
  deriving DecidableEq

/-- The `for attempt in range(max_retries)` loop of `OverpassClient.query`
(src/clients/overpass_client.py lines 46-70), at iteration index `attempt`
with `fuel` iterations remaining (so `fuel = max_retries - attempt` on
entry).  On success the payload is returned at once; on failure, when further
iterations remain (`attempt < max_retries - 1`, i.e. `fuel > 1`) the loop
sleeps `retry_delay * 2 ^ attempt` and continues, otherwise it re-raises the
exception.  When the loop runs out (unreachable for `max_retries ≥ 1`) the
function falls through to `return {}`. -/
def queryLoop (retry_delay : ℚ) (attempts : AttemptOutcomes) :
    ℕ → ℕ → QueryTrace
  | _, 0 => ⟨0, [], .ok {}⟩
  | attempt, fuel + 1 =>
    match attempts attempt with
    | .ok data => ⟨1, [], .ok data⟩
    | .error e =>
      if fuel = 0 then ⟨1, [], .error e⟩
      else
        let rest := queryLoop retry_delay attempts (attempt + 1) fuel
        ⟨rest.fetch_count + 1, retry_delay * 2 ^ attempt :: rest.sleeps, rest.result⟩

/-- Method `OverpassClient.query`: run the retry loop from attempt 0 with the
configured budget. -/
def OverpassClient.query (config : OverpassConfig) (attempts : AttemptOutcomes) :
    QueryTrace :=
  queryLoop config.retry_delay attempts 0 config.max_retries

/-- The in-memory cache `self._cache : dict[int, Polygon]` of
`PolygonRepository`, as an association list in insertion order with unique
keys. -/
abbrev Cache := List (Int × Polygon)

/-- Method `PolygonRepository.save`: `self._cache[item.osm_id] = item`
(dict assignment: replace in place or append). -/
def cache_save : Cache → Polygon → Cache
  | [], item => [(item.osm_id, item)]
  | kv :: rest, item =>
    if kv.1 = item.osm_id then (item.osm_id, item) :: rest
    else kv :: cache_save rest item

/-- Method `PolygonRepository.find_by_id`: `self._cache.get(item_id)`. -/
def find_by_id (cache : Cache) (item_id : Int) : Option Polygon :=
  (cache.find? (fun kv => decide (kv.1 = item_id))).map Prod.snd

/-- Method `PolygonRepository.delete`: when `item_id in self._cache`, remove
the entry (`del`) and return true, else return false. -/
def cache_delete (cache : Cache) (item_id : Int) : Cache × Bool :=
  if cache.any (fun kv => decide (kv.1 = item_id)) then
    (cache.eraseP (fun kv => decide (kv.1 = item_id)), true)
  else (cache, false)

/-- Static method `PolygonRepository._build_tag_conditions`: concatenation of
one clause `["key"="value"]` per tag pair, in iteration order. -/
def build_tag_conditions (tags : List (String × String)) : String :=
  tags.foldl
    (fun conditions kv => conditions ++ "[\"" ++ kv.1 ++ "\"=\"" ++ kv.2 ++ "\"]") ""

/-- The query f-string built by `PolygonRepository.find_ways`. -/
def way_query (bbox : BoundingBox) (tags : List (String × String)) : String :=
  "\n[bbox:" ++ bbox.to_overpass ++ "];\n(\n  way" ++ build_tag_conditions tags
    ++ ";\n);\nout geom;\n"

/-- The query f-string built by `PolygonRepository.find_relations`. -/
def relation_query (bbox : BoundingBox) (tags : List (String × String)) : String :=
  "\n[bbox:" ++ bbox.to_overpass ++ "];\n(\n  relation" ++ build_tag_conditions tags
    ++ ";\n);\nout count;\n"

/-- Errors a repository method can signal to its caller. -/
inductive RepoError where
  | invalidBoundingBox (bbox : BoundingBox)
  | transport (e : RequestException)
  deriving DecidableEq

/-- Method `PolygonRepository._parse_element`.  The body is wrapped in
`try/except`, so a failing `polygon.close()` (only possible on empty
coordinates) would also yield `None`; `Option.bind` reflects that. -/
def parse_element (element : OsmElement) (polygon_type : PolygonType) :
    Option Polygon :=
  let coordinates :=
    match element.geometry with
    | none => []
    | some geom => geom.map (fun node => (node.lon, node.lat))
  if coordinates.isEmpty then none
  else
    let polygon : Polygon :=
      { osm_id := element.id, polygon_type := polygon_type,
        coordinates := coordinates, tags := element.tags }
    if polygon_type = PolygonType.way then polygon.close
    else some polygon

/-- Body of the `for element in data["elements"]` loop of
`_query_and_parse`: elements whose declared type matches are parsed; a
successful parse is saved to the cache and appended to the result list; a
failed parse (and a non-matching type) leaves the accumulator unchanged. -/
def qp_step (polygon_type : PolygonType) (acc : Cache × List Polygon)
    (element : OsmElement) : Cache × List Polygon :=
  if element.etype = some polygon_type.value then
    match parse_element element polygon_type with
    | some polygon => (cache_save acc.1 polygon, acc.2 ++ [polygon])
    | none => acc
  else acc

/-- Method `PolygonRepository._query_and_parse`, with the cache threaded
explicitly (the Python method mutates `self._cache` through `self.save`).
The whole body is under `try/except Exception: return []`, so a fetch
failure degrades to the empty list and leaves the cache untouched. -/
def query_and_parse (cache : Cache)
    (fetch_result : Except RequestException OverpassResponse)
    (polygon_type : PolygonType) : Cache × List Polygon :=
  match fetch_result with
  | .error _ => (cache, [])
  | .ok data =>
    match data.elements with
    | none => (cache, [])
    | some elements => elements.foldl (qp_step polygon_type) (cache, [])

/-- Method `PolygonRepository.find_ways`: raises `ValueError` on an invalid
bbox before any network call (the outcome does not depend on
`fetch_result`), otherwise delegates to `_query_and_parse` with the way
kind. -/
def find_ways (cache : Cache) (bbox : BoundingBox)
    (fetch_result : Except RequestException OverpassResponse) :
    Except RepoError (Cache × List Polygon) :=
  if bbox.is_valid = false then .error (.invalidBoundingBox bbox)
  else .ok (query_and_parse cache fetch_result PolygonType.way)

/-- Method `PolygonRepository.find_relations`: raises `ValueError` on an
invalid bbox; otherwise calls `self.client.query` (not inside any `try`, so
a transport failure propagates) and returns the literal empty list. -/
def find_relations (bbox : BoundingBox)
    (fetch_result : Except RequestException OverpassResponse) :
    Except RepoError (List Polygon) :=
  if bbox.is_valid = false then .error (.invalidBoundingBox bbox)
  else
    match fetch_result with
    | .error e => .error (.transport e)
    | .ok _ => .ok []

/-! Helper lemmas about the shoelace sum and polygon closure. -/

lemma shoelace_nil : shoelace [] = 0 := rfl

lemma shoelace_single (a : ℚ × ℚ) : shoelace [a] = 0 := by
  obtain ⟨x, y⟩ := a; rfl

lemma shoelace_cons₂ (a b : ℚ × ℚ) (l : List (ℚ × ℚ)) :
    shoelace (a :: b :: l) = (a.1 * b.2 - b.1 * a.2) + shoelace (b :: l) := by
  obtain ⟨x1, y1⟩ := a; obtain ⟨x2, y2⟩ := b; rfl

lemma shoelace_concat₂ (l : List (ℚ × ℚ)) (a b : ℚ × ℚ) :
    shoelace (l ++ [a, b]) = shoelace (l ++ [a]) + (a.1 * b.2 - b.1 * a.2) := by
  induction l with
  | nil =>
    simp only [List.nil_append]
    rw [shoelace_cons₂, shoelace_single, shoelace_single]
    ring
  | cons c t ih =>
    cases t with
    | nil =>
      simp only [List.nil_append, List.cons_append]
      rw [shoelace_cons₂, shoelace_cons₂ a b, shoelace_cons₂ c a,
        shoelace_single, shoelace_single]
      ring
    | cons d t' =>
      simp only [List.cons_append] at ih ⊢
      rw [shoelace_cons₂, shoelace_cons₂ c d, ih]
      ring

lemma shoelace_reverse (l : List (ℚ × ℚ)) : shoelace l.reverse = -shoelace l := by
  induction l with
  | nil => simp [shoelace_nil]
  | cons a t ih =>
    cases t with
    | nil => simp [shoelace_single]
    | cons b t' =>
      have h1 : (a :: b :: t').reverse = t'.reverse ++ [b, a] := by simp
      have h2 : t'.reverse ++ [b] = (b :: t').reverse := by simp
      rw [h1, shoelace_concat₂, h2, ih, shoelace_cons₂]
      ring

lemma is_closed_iff (p : Polygon) :
    p.is_closed = true ↔
      3 ≤ p.coordinates.length ∧ p.coordinates.head? = p.coordinates.getLast? := by
  unfold Polygon.is_closed
  split
  · constructor
    · intro h; exact absurd h (by simp)
    · intro ⟨h3, _⟩; omega
  · simp only [decide_eq_true_eq]
    constructor
    · intro h; exact ⟨by omega, h⟩
    · intro ⟨_, h⟩; exact h

lemma is_closed_reverse (p : Polygon) :
    Polygon.is_closed { p with coordinates := p.coordinates.reverse } = p.is_closed := by
  unfold Polygon.is_closed
  simp only [List.length_reverse, List.head?_reverse, List.getLast?_reverse]
  rcases h : decide (p.coordinates.head? = p.coordinates.getLast?) with _ | _
  · simp only [decide_eq_false_iff_not] at h
    rw [decide_eq_false (fun hc => h hc.symm)]
  · simp only [decide_eq_true_eq] at h
    rw [decide_eq_true h.symm]

/-- C7: `BoundingBox.is_valid` (the spec's `validate()`) is false iff one of
the six conditions holds (min ≥ max on either axis, or any coordinate out of
its legal range), and the box at the boundary extremes ±90/±180 is valid. -/
theorem bbox_is_valid_spec (b : BoundingBox) :
    (b.is_valid = false ↔
      (b.lat_min ≥ b.lat_max ∨ b.lon_min ≥ b.lon_max ∨
       ¬(-90 ≤ b.lat_min ∧ b.lat_min ≤ 90) ∨
       ¬(-90 ≤ b.lat_max ∧ b.lat_max ≤ 90) ∨
       ¬(-180 ≤ b.lon_min ∧ b.lon_min ≤ 180) ∨
       ¬(-180 ≤ b.lon_max ∧ b.lon_max ≤ 180))) ∧
    BoundingBox.is_valid ⟨-90, -180, 90, 180⟩ = true := by
  constructor
  · unfold BoundingBox.is_valid
    split_ifs <;> simp_all
  · decide

/-- C10: `get_area` is non-negative; it is exactly 0 when the polygon is
unclosed or has fewer than 3 coordinates, otherwise the absolute value of the
signed shoelace sum halved; and reversing the ring's orientation leaves the
area unchanged. -/
theorem get_area_spec (p : Polygon) :
    0 ≤ p.get_area ∧
    (p.is_closed = false ∨ p.coordinates.length < 3 → p.get_area = 0) ∧
    (p.is_closed = true → 3 ≤ p.coordinates.length →
      p.get_area = |shoelace p.coordinates| / 2) ∧
    Polygon.get_area { p with coordinates := p.coordinates.reverse } = p.get_area := by
  refine ⟨?_, ?_, ?_, ?_⟩
  · unfold Polygon.get_area
    split
    · exact le_refl 0
    · positivity
  · intro h
    unfold Polygon.get_area
    rw [if_pos h]
  · intro hc hlen
    unfold Polygon.get_area
    rw [if_neg (by simp [hc]; omega)]
  · unfold Polygon.get_area
    simp only [is_closed_reverse, List.length_reverse, shoelace_reverse, abs_neg]

/-- Unit square used to exercise `get_area_spec` at a closed, concrete
polygon. -/
def unitSquare : Polygon :=
  { osm_id := 1, polygon_type := .way,
    coordinates := [(0, 0), (1, 0), (1, 1), (0, 1), (0, 0)] }

theorem get_area_spec_witness :
    unitSquare.get_area = |shoelace unitSquare.coordinates| / 2 :=
  (get_area_spec unitSquare).2.2.1 (by decide) (by decide)

lemma close_cases (p q : Polygon) (h : p.close = some q) :
    (p.is_closed = true ∧ q = p) ∨
    (p.is_closed = false ∧ ∃ c t, p.coordinates = c :: t ∧
      q = { p with coordinates := (c :: t) ++ [c] }) := by
  unfold Polygon.close at h
  split at h
  next hc =>
    left
    exact ⟨hc, by injection h with h; exact h.symm⟩
  next hc =>
    right
    refine ⟨by simpa using hc, ?_⟩
    split at h
    next => exact absurd h (by simp)
    next c t heq =>
      refine ⟨c, t, heq, ?_⟩
      injection h with h
      rw [← h, heq]

lemma close_head_getLast (p q : Polygon) (h : p.close = some q) :
    q.coordinates.head? = q.coordinates.getLast? := by
  rcases close_cases p q h with ⟨hc, rfl⟩ | ⟨_, c, t, _, rfl⟩
  · exact ((is_closed_iff q).mp hc).2
  · show ((c :: t) ++ [c]).head? = ((c :: t) ++ [c]).getLast?
    rw [List.getLast?_concat]
    rfl

lemma close_isSome (p : Polygon) (h : p.coordinates ≠ []) :
    (p.close).isSome = true := by
  unfold Polygon.close
  split
  · rfl
  · split
    next heq => exact absurd heq h
    next => rfl

/-- C9: `Polygon.close` fails (returns no polygon) exactly when the
coordinate list is empty, and the parser's geometry guard makes that branch
unreachable: `parse_element` succeeds iff the element has a non-empty
geometry, so `close` is never reached with empty coordinates. -/
theorem close_empty_guard (q : Polygon) (element : OsmElement)
    (ptype : PolygonType) :
    (q.coordinates = [] → q.close = none) ∧
    ((parse_element element ptype).isSome = true ↔
      ∃ g, element.geometry = some g ∧ g ≠ []) := by
  constructor
  · intro h
    unfold Polygon.close Polygon.is_closed
    rw [h]
    simp
  · unfold parse_element
    rcases hg : element.geometry with _ | g
    · simp
    · rcases g with _ | ⟨pt, g'⟩
      · simp
      · simp only [List.map_cons, List.isEmpty_cons, Bool.false_eq_true,
          if_false, hg]
        constructor
        · intro _
          exact ⟨pt :: g', rfl, by simp⟩
        · intro _
          split
          · exact close_isSome _ (by simp)
          · rfl

theorem close_empty_guard_witness :
    Polygon.close { osm_id := 1, polygon_type := .way } = none :=
  (close_empty_guard { osm_id := 1, polygon_type := .way }
    { etype := some "way", id := 1 } .way).1 rfl

/-- Way element with a single geometry point, for which the parser's close
step yields two equal coordinates. -/
def singlePointElement : OsmElement :=
  { etype := some "way", id := 1, geometry := some [⟨0, 0⟩] }

/-- The polygon the parser produces from `singlePointElement`. -/
def singlePointClosed : Polygon :=
  { osm_id := 1, polygon_type := .way, coordinates := [(0, 0), (0, 0)] }

/-- C4 counterexample: for a way element whose geometry has a single point,
the parser's close step yields 2 coordinates, and calling `close` again
appends once more — the length changes from 2 to 3, so closing is not
idempotent for such elements. -/
theorem close_second_counterexample :
    parse_element singlePointElement PolygonType.way = some singlePointClosed ∧
    singlePointClosed.close =
      some { osm_id := 1, polygon_type := PolygonType.way,
             coordinates := [(0, 0), (0, 0), (0, 0)] } ∧
    ¬ (∀ r, singlePointClosed.close = some r →
        r.coordinates.length = singlePointClosed.coordinates.length) := by
  refine ⟨by decide, by decide, ?_⟩
  intro hcontra
  have := hcontra
    { osm_id := 1, polygon_type := PolygonType.way,
      coordinates := [(0, 0), (0, 0), (0, 0)] } (by decide)
  exact absurd this (by decide)

/-- C4 amended: for every way element the parser parses successfully, the
resulting polygon satisfies `coordinates[0] == coordinates[last]`; and when
the element's geometry had at least two points, calling `close` again
returns the polygon unchanged (in particular the length is unchanged).  For
a single-point geometry the claim fails (see the counterexample): the closed
polygon has only 2 coordinates, so a second `close` appends again. -/
theorem parser_close_spec (element : OsmElement) (p : Polygon)
    (h : parse_element element PolygonType.way = some p) :
    p.coordinates.head? = p.coordinates.getLast? ∧
    (∀ g, element.geometry = some g → 2 ≤ g.length → p.close = some p) := by
  unfold parse_element at h
  rcases hg : element.geometry with _ | g
  · rw [hg] at h
    simp at h
  · rw [hg] at h
    rcases g with _ | ⟨pt, g'⟩
    · simp at h
    · simp only [List.map_cons, List.isEmpty_cons, Bool.false_eq_true,
        if_false, eq_self_iff_true, if_true] at h
      constructor
      · exact close_head_getLast _ _ h
      · intro g0 hg0 hlen
        have hg0' : g0 = pt :: g' := (Option.some.inj hg0).symm
        subst hg0'
        have hlen' : 1 ≤ g'.length := by simpa using hlen
        have hhead := close_head_getLast _ _ h
        have hlen3 : 3 ≤ p.coordinates.length := by
          rcases close_cases _ _ h with ⟨hc, rfl⟩ | ⟨_, c, t, hct, rfl⟩
          · exact ((is_closed_iff _).mp hc).1
          · simp only [List.length_append, List.length_cons,
              List.length_singleton]
            have : g'.length = t.length := by
              have := congrArg List.length hct
              simpa using this
            omega
        have hclosed : p.is_closed = true := (is_closed_iff p).mpr ⟨hlen3, hhead⟩
        unfold Polygon.close
        rw [if_pos hclosed]

/-- Way element with two distinct geometry points. -/
def twoPointElement : OsmElement :=
  { etype := some "way", id := 2, geometry := some [⟨0, 0⟩, ⟨1, 2⟩] }

/-- The polygon the parser produces from `twoPointElement` (projection to
(lon, lat) order, then closed). -/
def twoPointClosed : Polygon :=
  { osm_id := 2, polygon_type := .way, coordinates := [(0, 0), (2, 1), (0, 0)] }

theorem parser_close_spec_witness :
    twoPointClosed.coordinates.head? = twoPointClosed.coordinates.getLast? ∧
    twoPointClosed.close = some twoPointClosed :=
  ⟨(parser_close_spec twoPointElement twoPointClosed (by decide)).1,
   (parser_close_spec twoPointElement twoPointClosed (by decide)).2
     [⟨0, 0⟩, ⟨1, 2⟩] rfl (by decide)⟩

/-! Helper lemmas about the polygon cache. -/

lemma cache_save_mem_keys (c : Cache) (p : Polygon) (a : Int)
    (h : a ∈ (cache_save c p).map Prod.fst) :
    a ∈ c.map Prod.fst ∨ a = p.osm_id := by
  induction c with
  | nil =>
    right
    simpa [cache_save] using h
  | cons kv rest ih =>
    unfold cache_save at h
    split at h
    · simp only [List.map_cons, List.mem_cons] at h ⊢
      rcases h with h | h
      · right; exact h
      · left; right; exact h
    · simp only [List.map_cons, List.mem_cons] at h ⊢
      rcases h with h | h
      · left; left; exact h
      · rcases ih h with h' | h'
        · left; right; exact h'
        · right; exact h'

lemma cache_save_nodup (c : Cache) (p : Polygon)
    (h : (c.map Prod.fst).Nodup) :
    ((cache_save c p).map Prod.fst).Nodup := by
  induction c with
  | nil => simp [cache_save]
  | cons kv rest ih =>
    simp only [List.map_cons, List.nodup_cons] at h
    unfold cache_save
    split
    next heq =>
      simp only [List.map_cons, List.nodup_cons]
      exact ⟨heq ▸ h.1, h.2⟩
    next hne =>
      simp only [List.map_cons, List.nodup_cons]
      refine ⟨?_, ih h.2⟩
      intro hmem
      rcases cache_save_mem_keys rest p kv.1 hmem with h' | h'
      · exact h.1 h'
      · exact hne h'

lemma filter_key_eq_nil (l : Cache) (k : Int) (h : k ∉ l.map Prod.fst) :
    l.filter (fun kv => decide (kv.1 = k)) = [] := by
  induction l with
  | nil => rfl
  | cons kv rest ih =>
    simp only [List.map_cons, List.mem_cons, not_or] at h
    have hd : (decide (kv.1 = k)) = false := decide_eq_false (fun he => h.1 he.symm)
    simp [List.filter_cons, hd, ih h.2]

lemma cache_save_filter (c : Cache) (p : Polygon)
    (h : (c.map Prod.fst).Nodup) :
    (cache_save c p).filter (fun kv => decide (kv.1 = p.osm_id)) =
      [(p.osm_id, p)] := by
  induction c with
  | nil => simp [cache_save]
  | cons kv rest ih =>
    simp only [List.map_cons, List.nodup_cons] at h
    unfold cache_save
    split
    next heq =>
      have hk : p.osm_id ∉ rest.map Prod.fst := heq ▸ h.1
      simp [List.filter_cons, filter_key_eq_nil rest p.osm_id hk]
    next hne =>
      have hd : (decide (kv.1 = p.osm_id)) = false := decide_eq_false hne
      simp [List.filter_cons, hd, ih h.2]

lemma find_by_id_eq_none (c : Cache) (k : Int) :
    find_by_id c k = none ↔ ∀ kv ∈ c, kv.1 ≠ k := by
  unfold find_by_id
  simp [List.find?_eq_none]

lemma eraseP_key_not_found (c : Cache) (k : Int)
    (h : (c.map Prod.fst).Nodup) :
    find_by_id (c.eraseP (fun kv => decide (kv.1 = k))) k = none := by
  induction c with
  | nil => rfl
  | cons kv rest ih =>
    simp only [List.map_cons, List.nodup_cons] at h
    by_cases hk : kv.1 = k
    · rw [List.eraseP_cons_of_pos (by simpa using hk)]
      rw [find_by_id_eq_none]
      intro kv' hmem heq
      exact h.1 (List.mem_map.mpr ⟨kv', hmem, by rw [heq, hk]⟩)
    · rw [List.eraseP_cons_of_neg (by simpa using hk)]
      have hih := ih h.2
      unfold find_by_id at hih ⊢
      rw [List.find?_cons_of_neg _ (by simpa using hk)]
      exact hih

lemma any_of_find (c : Cache) (k : Int) (q : Polygon)
    (h : find_by_id c k = some q) :
    c.any (fun kv => decide (kv.1 = k)) = true := by
  unfold find_by_id at h
  rcases Option.map_eq_some'.mp h with ⟨kv, hfind, _⟩
  have hmem := List.mem_of_find?_eq_some hfind
  have hp := List.find?_some hfind
  rw [List.any_eq_true]
  exact ⟨kv, hmem, hp⟩

lemma any_eq_false_of_none (c : Cache) (k : Int)
    (h : find_by_id c k = none) :
    c.any (fun kv => decide (kv.1 = k)) = false := by
  rw [find_by_id_eq_none] at h
  simp only [List.any_eq_false, decide_eq_true_eq]
  exact h

/-- C8: two saves under the same `osm_id` leave exactly one cache entry
under that id, holding the second polygon (last write wins, no merge);
`delete` on an absent id returns false and leaves the cache untouched (no
exception — the function is total); `delete` on a present id removes the
entry and returns true. -/
theorem cache_spec (cache : Cache) (p1 p2 : Polygon) (item_id : Int)
    (hnodup : (cache.map Prod.fst).Nodup) (hid : p2.osm_id = p1.osm_id) :
    (cache_save (cache_save cache p1) p2).filter
        (fun kv => decide (kv.1 = p1.osm_id)) = [(p1.osm_id, p2)] ∧
    (find_by_id cache item_id = none →
      cache_delete cache item_id = (cache, false)) ∧
    (∀ q, find_by_id cache item_id = some q →
      (cache_delete cache item_id).2 = true ∧
      find_by_id (cache_delete cache item_id).1 item_id = none) := by
  refine ⟨?_, ?_, ?_⟩
  · have h1 := cache_save_filter (cache_save cache p1) p2
      (cache_save_nodup cache p1 hnodup)
    rw [hid] at h1
    exact h1
  · intro hnone
    unfold cache_delete
    rw [any_eq_false_of_none cache item_id hnone]
    simp
  · intro q hsome
    unfold cache_delete
    rw [any_of_find cache item_id q hsome]
    rw [if_pos rfl]
    exact ⟨rfl, eraseP_key_not_found cache item_id hnodup⟩

/-- First polygon saved in the witness scenario. -/
def pWayA : Polygon := { osm_id := 5, polygon_type := .way }

/-- Second polygon saved under the same id in the witness scenario. -/
def pNodeB : Polygon :=
  { osm_id := 5, polygon_type := .node, tags := [("k", .str "v")] }

theorem cache_spec_witness :
    (cache_save (cache_save [] pWayA) pNodeB).filter
        (fun kv => decide (kv.1 = pWayA.osm_id)) = [(pWayA.osm_id, pNodeB)] :=
  (cache_spec [] pWayA pNodeB 5 (by decide) rfl).1

/-! Helper lemmas about Python dict merge semantics. -/

lemma dictGet_dictInsert (d : Dict) (k : String) (v : JValue) (k' : String) :
    dictGet (dictInsert d k v) k' =
      if k' = k then some v else dictGet d k' := by
  induction d with
  | nil =>
    rcases eq_or_ne k' k with h | h
    · simp [dictInsert, dictGet, h]
    · simp [dictInsert, dictGet, h, Ne.symm h]
  | cons kv rest ih =>
    unfold dictInsert
    split
    next heq =>
      rcases eq_or_ne k' k with h | h
      · subst h
        simp [dictGet, List.find?_cons]
      · have h1 : dictGet ((k, v) :: rest) k' = dictGet rest k' := by
          simp [dictGet, List.find?_cons, decide_eq_false (Ne.symm h)]
        have h2 : dictGet (kv :: rest) k' = dictGet rest k' := by
          simp [dictGet, List.find?_cons,
            decide_eq_false (fun hh : kv.1 = k' => h (hh.symm.trans heq))]
        rw [h1, h2, if_neg h]
    next hne =>
      rcases eq_or_ne kv.1 k' with h | h
      · have h1 : dictGet (kv :: dictInsert rest k v) k' = some kv.2 := by
          simp [dictGet, List.find?_cons, h]
        have h2 : dictGet (kv :: rest) k' = some kv.2 := by
          simp [dictGet, List.find?_cons, h]
        rw [h1, h2, if_neg (fun hkk => hne (h.trans hkk))]
      · have h1 : dictGet (kv :: dictInsert rest k v) k' =
            dictGet (dictInsert rest k v) k' := by
          simp [dictGet, List.find?_cons, decide_eq_false h]
        have h2 : dictGet (kv :: rest) k' = dictGet rest k' := by
          simp [dictGet, List.find?_cons, decide_eq_false h]
        rw [h1, h2, ih]

lemma dictGet_eq_none_of_not_mem (d : Dict) (k : String)
    (h : k ∉ d.map Prod.fst) : dictGet d k = none := by
  unfold dictGet
  rw [List.find?_eq_none.mpr]
  · rfl
  · intro kv hmem
    simp only [decide_eq_true_eq]
    intro heq
    exact h (List.mem_map.mpr ⟨kv, hmem, heq⟩)

lemma dictGet_dictUnion (d1 d2 : Dict) (k : String)
    (h : (d2.map Prod.fst).Nodup) :
    dictGet (dictUnion d1 d2) k =
      (dictGet d2 k).orElse fun _ => dictGet d1 k := by
  induction d2 generalizing d1 with
  | nil =>
    unfold dictUnion dictGet
    simp [Option.orElse]
  | cons kv rest ih =>
    simp only [List.map_cons, List.nodup_cons] at h
    have hstep : dictUnion d1 (kv :: rest) = dictUnion (dictInsert d1 kv.1 kv.2) rest := by
      unfold dictUnion
      rfl
    rw [hstep, ih _ h.2]
    rcases eq_or_ne k kv.1 with hk | hk
    · have hrest : dictGet rest k = none :=
        dictGet_eq_none_of_not_mem rest k (hk ▸ h.1)
      have hcons : dictGet (kv :: rest) k = some kv.2 := by
        simp [dictGet, List.find?_cons, hk.symm]
      rw [hrest, hcons, dictGet_dictInsert, if_pos hk]
      rfl
    · have hcons : dictGet (kv :: rest) k = dictGet rest k := by
        simp [dictGet, List.find?_cons,
          decide_eq_false (fun he : kv.1 = k => hk he.symm)]
      rw [hcons, dictGet_dictInsert, if_neg hk]

/-- Polygon whose tags collide with the computed `type` entry. -/
def tagOverridePolygon : Polygon :=
  { osm_id := 7, polygon_type := .way, tags := [("type", .str "custom")] }

/-- C5 counterexample: in the dict literal
`{"osm_id": ..., "type": ..., **tags, **properties}` later keys override
earlier ones unconditionally, so a tag entry keyed "type" replaces the
computed entry — contradicting the claim that tags do not replace the
computed entries. -/
theorem feature_properties_counterexample :
    dictGet (Polygon.to_geojson_feature tagOverridePolygon).properties "type" =
      some (.str "custom") ∧
    dictGet (Polygon.to_geojson_feature tagOverridePolygon).properties "type" ≠
      some (.str "way") := by
  constructor
  · decide
  · decide

/-- C5 amended: the properties object of a polygon's GeoJSON feature is the
merge of the computed entries (osm_id, type as lowercase string), then the
polygon's tags, then its properties, where later keys override earlier ones
unconditionally on collision: a tag entry replaces a computed osm_id/type
entry when the key collides, and caller-supplied properties win over both
tags and computed entries.  (Key lookup composes right to left.) -/
theorem feature_properties_spec (p : Polygon) (k : String)
    (htags : (p.tags.map Prod.fst).Nodup)
    (hprops : (p.properties.map Prod.fst).Nodup) :
    dictGet (Polygon.to_geojson_feature p).properties k =
      ((dictGet p.properties k).orElse fun _ =>
        (dictGet p.tags k).orElse fun _ =>
          dictGet [("osm_id", JValue.int p.osm_id),
                   ("type", JValue.str p.polygon_type.value)] k) := by
  unfold Polygon.to_geojson_feature Polygon.feature_properties
  rw [dictGet_dictUnion _ _ _ hprops, dictGet_dictUnion _ _ _ htags]

theorem feature_properties_spec_witness :
    dictGet
        (Polygon.to_geojson_feature
          { osm_id := 7, polygon_type := .way,
            tags := [("name", .str "t")],
            properties := [("name", .str "p")] }).properties "name" =
      some (.str "p") := by
  have h := feature_properties_spec
    { osm_id := 7, polygon_type := .way,
      tags := [("name", .str "t")], properties := [("name", .str "p")] }
    "name" (by decide) (by decide)
  rw [h]
  decide

/-! Helper lemmas about the retry loop. -/

lemma range_succ_map_pow (d : ℚ) (attempt k : ℕ) :
    (List.range (k + 1)).map (fun i => d * 2 ^ (attempt + i)) =
      d * 2 ^ attempt ::
        (List.range k).map (fun i => d * 2 ^ (attempt + 1 + i)) := by
  rw [List.range_succ_eq_map, List.map_cons, List.map_map]
  refine congrArg₂ _ (by rw [Nat.add_zero]) ?_
  refine List.map_congr_left ?_
  intro i _
  simp only [Function.comp_apply]
  rw [show attempt + Nat.succ i = attempt + 1 + i by omega]

lemma queryLoop_succeeds (d : ℚ) (att : AttemptOutcomes)
    (data : OverpassResponse) :
    ∀ (k fuel attempt : ℕ), k < fuel →
      (∀ i, i < k → ∃ e, att (attempt + i) = .error e) →
      att (attempt + k) = .ok data →
      queryLoop d att attempt fuel =
        ⟨k + 1, (List.range k).map (fun i => d * 2 ^ (attempt + i)), .ok data⟩ := by
  intro k
  induction k with
  | zero =>
    intro fuel attempt hk _ hok
    rw [Nat.add_zero] at hok
    match fuel, hk with
    | f + 1, _ =>
      simp only [queryLoop]
      rw [hok]
      simp
  | succ k ih =>
    intro fuel attempt hk hfail hok
    obtain ⟨e, he⟩ := hfail 0 (Nat.succ_pos k)
    rw [Nat.add_zero] at he
    match fuel, hk with
    | f + 1, hk =>
      have hk' : k < f := Nat.lt_of_succ_lt_succ hk
      have hf0 : ¬ f = 0 := by omega
      have ihh := ih f (attempt + 1) hk'
        (fun i hi => by
          have hh := hfail (i + 1) (Nat.succ_lt_succ hi)
          rwa [show attempt + (i + 1) = attempt + 1 + i by omega] at hh)
        (by rwa [show attempt + 1 + k = attempt + (k + 1) by omega])
      simp only [queryLoop, he, if_neg hf0, ihh]
      rw [range_succ_map_pow]

lemma queryLoop_all_fail (d : ℚ) (att : AttemptOutcomes)
    (e : RequestException) :
    ∀ (fuel attempt : ℕ), 1 ≤ fuel →
      (∀ i, i < fuel → ∃ er, att (attempt + i) = .error er) →
      att (attempt + (fuel - 1)) = .error e →
      queryLoop d att attempt fuel =
        ⟨fuel, (List.range (fuel - 1)).map (fun i => d * 2 ^ (attempt + i)),
         .error e⟩ := by
  intro fuel
  induction fuel with
  | zero => omega
  | succ f ihf =>
    intro attempt _ hfail hlast
    rcases Nat.eq_zero_or_pos f with hf | hf
    · subst hf
      rw [Nat.add_zero] at hlast
      simp [queryLoop, hlast]
    · have hf0 : ¬ f = 0 := by omega
      obtain ⟨er, her⟩ := hfail 0 (by omega)
      rw [Nat.add_zero] at her
      have ih := ihf (attempt + 1) hf
        (fun i hi => by
          have hh := hfail (i + 1) (by omega)
          rwa [show attempt + (i + 1) = attempt + 1 + i by omega] at hh)
        (by rwa [show attempt + 1 + (f - 1) = attempt + (f + 1 - 1) by omega])
      simp only [queryLoop, her, if_neg hf0, ih]
      have hr : f + 1 - 1 = (f - 1) + 1 := by omega
      rw [hr, range_succ_map_pow]

/-- C1: `OverpassClient.query` retries strictly sequentially.  If the first
`k` attempts fail (`k < max_retries`) and attempt `k+1` succeeds, exactly
`k+1` fetch calls are made, with sleeps `retry_delay * 2^0, ...,
retry_delay * 2^(k-1)` between consecutive attempts, no sleep after the
success, and the decoded payload of the successful attempt is returned
unchanged.  If all `max_retries` attempts fail, exactly `max_retries` fetch
calls are made and the failure of the last attempt is re-raised unchanged. -/
theorem query_retry_spec (config : OverpassConfig) (attempts : AttemptOutcomes) :
    (∀ k, k < config.max_retries →
      (∀ i, i < k → ∃ e, attempts i = .error e) →
      ∀ data, attempts k = .ok data →
        OverpassClient.query config attempts =
          ⟨k + 1, (List.range k).map (fun i => config.retry_delay * 2 ^ i),
           .ok data⟩) ∧
    (1 ≤ config.max_retries →
      (∀ i, i < config.max_retries → ∃ e, attempts i = .error e) →
      ∀ e, attempts (config.max_retries - 1) = .error e →
        OverpassClient.query config attempts =
          ⟨config.max_retries,
           (List.range (config.max_retries - 1)).map
             (fun i => config.retry_delay * 2 ^ i),
           .error e⟩) := by
  constructor
  · intro k hk hfail data hok
    have h := queryLoop_succeeds config.retry_delay attempts data k
      config.max_retries 0 hk (by simpa using hfail) (by simpa using hok)
    simpa [OverpassClient.query] using h
  · intro hmax hfail e hlast
    have h := queryLoop_all_fail config.retry_delay attempts e
      config.max_retries 0 hmax (by simpa using hfail) (by simpa using hlast)
    simpa [OverpassClient.query] using h

/-- Attempt outcomes where attempt 0 fails and every later attempt returns
the empty payload. -/
def failThenOk : AttemptOutcomes :=
  fun n => if n = 0 then .error ⟨"boom"⟩ else .ok {}

theorem query_retry_spec_witness :
    OverpassClient.query ⟨"u", 30, 3, 1⟩ failThenOk =
      ⟨2, (List.range 1).map (fun i => (1 : ℚ) * 2 ^ i), .ok {}⟩ :=
  (query_retry_spec ⟨"u", 30, 3, 1⟩ failThenOk).1 1 (by decide)
    (fun i hi => ⟨⟨"boom"⟩, by
      have h0 : i = 0 := by omega
      subst h0
      rfl⟩)
    {} rfl

/-- C2: `find_relations` validates the bbox (raising the invalid-bbox error
when validation fails) and, for every payload the collaborator returns —
including payloads with non-empty `elements` — returns the empty sequence;
the relation query it issues ends in the count-only output directive
`out count;` rather than requesting geometry. -/
theorem find_relations_spec (bbox : BoundingBox)
    (tags : List (String × String))
    (fetch_result : Except RequestException OverpassResponse) :
    (bbox.is_valid = true →
      ∀ data, fetch_result = .ok data →
        find_relations bbox fetch_result = .ok []) ∧
    (∃ s, relation_query bbox tags = s ++ "out count;\n") ∧
    (bbox.is_valid = false →
      find_relations bbox fetch_result = .error (.invalidBoundingBox bbox)) := by
  refine ⟨?_, ?_, ?_⟩
  · intro hv data hok
    unfold find_relations
    rw [hok]
    simp [hv]
  · refine ⟨"\n[bbox:" ++ bbox.to_overpass ++ "];\n(\n  relation"
      ++ build_tag_conditions tags ++ ";\n);\n", ?_⟩
    unfold relation_query
    simp only [String.append_assoc]
    congr 2
  · intro hv
    unfold find_relations
    rw [hv]
    simp

theorem find_relations_spec_witness :
    find_relations ⟨48, 2, 49, 3⟩
        (.ok ⟨some [{ etype := some "relation", id := 9 }]⟩) = .ok [] :=
  (find_relations_spec ⟨48, 2, 49, 3⟩ [] _).1 (by decide) _ rfl

/-- C3: `find_ways` raises the invalid-bbox error for an invalid bbox
independently of any fetch outcome (before any network call), and this
error reaches the caller; for a valid bbox, a failing fetch — in particular
the re-raised failure after the client exhausts all its retries — is caught
by the surrounding `try/except` and degrades to the empty sequence instead
of propagating. -/
theorem find_ways_error_spec (cache : Cache) (bbox : BoundingBox)
    (fetch_result : Except RequestException OverpassResponse)
    (config : OverpassConfig) (attempts : AttemptOutcomes) :
    (bbox.is_valid = false →
      find_ways cache bbox fetch_result = .error (.invalidBoundingBox bbox)) ∧
    (bbox.is_valid = true → ∀ e, fetch_result = .error e →
      find_ways cache bbox fetch_result = .ok (cache, [])) ∧
    (bbox.is_valid = true → 1 ≤ config.max_retries →
      (∀ i, i < config.max_retries → ∃ e, attempts i = .error e) →
      find_ways cache bbox (OverpassClient.query config attempts).result =
        .ok (cache, [])) := by
  refine ⟨?_, ?_, ?_⟩
  · intro hv
    unfold find_ways
    rw [hv]
    simp
  · intro hv e hfr
    unfold find_ways query_and_parse
    rw [hv, hfr]
    simp
  · intro hv hmax hfail
    obtain ⟨e, hlast⟩ := hfail (config.max_retries - 1) (by omega)
    have h := queryLoop_all_fail config.retry_delay attempts e
      config.max_retries 0 hmax (by simpa using hfail) (by simpa using hlast)
    have hres : (OverpassClient.query config attempts).result = .error e := by
      unfold OverpassClient.query
      rw [h]
    unfold find_ways query_and_parse
    rw [hv, hres]
    simp

theorem find_ways_error_spec_witness :
    find_ways [] ⟨49, 2, 48, 3⟩ (.error ⟨"down"⟩) =
      .error (.invalidBoundingBox ⟨49, 2, 48, 3⟩) :=
  (find_ways_error_spec [] ⟨49, 2, 48, 3⟩ (.error ⟨"down"⟩)
    {} (fun _ => .error ⟨"down"⟩)).1 (by decide)

/-- C6 counterexample: for the way kind the parser closes the polygon after
projecting, so for an open 2-point geometry the produced coordinates are the
projection plus an appended closing point — not exactly the projected input
points. -/
theorem parse_coords_counterexample :
    parse_element twoPointElement PolygonType.way = some twoPointClosed ∧
    twoPointClosed.coordinates ≠
      ([⟨0, 0⟩, ⟨1, 2⟩] : List OsmPoint).map (fun node => (node.lon, node.lat)) := by
  constructor
  · decide
  · decide

/-- C6 amended: an element with no geometry, or an empty geometry, yields no
polygon; an element with a non-empty geometry yields a polygon whose
coordinates are the geometry points projected to (lon, lat) order in input
order — exactly these for the non-way kinds, and with the first projected
point appended at the end for the way kind when the projection is not
already closed; and a per-element parse failure never aborts the processing
of sibling elements in the same batch. -/
theorem parse_element_spec (element : OsmElement) (ptype : PolygonType) :
    (element.geometry = none → parse_element element ptype = none) ∧
    (∀ g, element.geometry = some g →
      (g = [] → parse_element element ptype = none) ∧
      (∀ pt g', g = pt :: g' →
        (ptype ≠ PolygonType.way →
          parse_element element ptype = some
            { osm_id := element.id, polygon_type := ptype,
              coordinates := (pt :: g').map (fun node => (node.lon, node.lat)),
              tags := element.tags }) ∧
        (ptype = PolygonType.way →
          (Polygon.is_closed
              { osm_id := element.id, polygon_type := ptype,
                coordinates := (pt :: g').map (fun node => (node.lon, node.lat)),
                tags := element.tags } = true →
            parse_element element ptype = some
              { osm_id := element.id, polygon_type := ptype,
                coordinates := (pt :: g').map (fun node => (node.lon, node.lat)),
                tags := element.tags }) ∧
          (Polygon.is_closed
              { osm_id := element.id, polygon_type := ptype,
                coordinates := (pt :: g').map (fun node => (node.lon, node.lat)),
                tags := element.tags } = false →
            parse_element element ptype = some
              { osm_id := element.id, polygon_type := ptype,
                coordinates :=
                  (pt :: g').map (fun node => (node.lon, node.lat))
                    ++ [(pt.lon, pt.lat)],
                tags := element.tags })))) ∧
    (∀ (cache : Cache) (els1 els2 : List OsmElement) (bad : OsmElement),
      parse_element bad ptype = none →
      query_and_parse cache (.ok ⟨some (els1 ++ bad :: els2)⟩) ptype =
        query_and_parse cache (.ok ⟨some (els1 ++ els2)⟩) ptype) := by
  refine ⟨?_, ?_, ?_⟩
  · intro hg
    unfold parse_element
    rw [hg]
    simp
  · intro g hg
    constructor
    · intro hnil
      subst hnil
      unfold parse_element
      rw [hg]
      simp
    · intro pt g' hgp
      subst hgp
      constructor
      · intro hway
        unfold parse_element
        rw [hg]
        simp only [List.map_cons, List.isEmpty_cons, Bool.false_eq_true,
          if_false, if_neg hway]
      · intro hway
        subst hway
        constructor
        · intro hclosed
          simp only [List.map_cons] at hclosed
          unfold parse_element
          rw [hg]
          simp only [List.map_cons, List.isEmpty_cons, Bool.false_eq_true,
            if_false, eq_self_iff_true, if_true]
          unfold Polygon.close
          rw [hclosed]
          simp
        · intro hopen
          simp only [List.map_cons] at hopen
          unfold parse_element
          rw [hg]
          simp only [List.map_cons, List.isEmpty_cons, Bool.false_eq_true,
            if_false, eq_self_iff_true, if_true]
          unfold Polygon.close
          rw [hopen]
          simp
  · intro cache els1 els2 bad hbad
    show (els1 ++ bad :: els2).foldl (qp_step ptype) (cache, []) =
      (els1 ++ els2).foldl (qp_step ptype) (cache, [])
    rw [List.foldl_append, List.foldl_append, List.foldl_cons]
    have hstep : qp_step ptype (els1.foldl (qp_step ptype) (cache, [])) bad =
        els1.foldl (qp_step ptype) (cache, []) := by
      unfold qp_step
      rcases hty : bad.etype with _ | s
      · simp
      · rcases eq_or_ne s ptype.value with hs | hs
        · simp [hs, hbad]
        · simp [hs]
    rw [hstep]

theorem parse_element_spec_witness :
    parse_element
        { etype := some "relation", id := 3,
          geometry := some [⟨1, 2⟩, ⟨3, 4⟩, ⟨1, 2⟩] } PolygonType.relation =
      some { osm_id := 3, polygon_type := .relation,
             coordinates := [(2, 1), (4, 3), (2, 1)] } :=
  ((parse_element_spec
      { etype := some "relation", id := 3,
        geometry := some [⟨1, 2⟩, ⟨3, 4⟩, ⟨1, 2⟩] } PolygonType.relation).2.1
    [⟨1, 2⟩, ⟨3, 4⟩, ⟨1, 2⟩] rfl).2 ⟨1, 2⟩ [⟨3, 4⟩, ⟨1, 2⟩] rfl
    |>.1 (by decide)

end OverPass
